import Mathlib

/-!
Shallow embedding of the crawl/extraction core of `src/background.js`
(the injected function `pageCrawler` and its inner helpers
`collectFromDoc`, `isInScope`, `visit` and the queue-drain loop).

Host primitives (the browser's `new URL` resolver and `fetch` +
`DOMParser`) are modelled as an explicit environment of functions; a
`fetch` that fails (network/CORS error or a non-ok HTTP status) is
`none`.  JS strings are Lean `String`s, JS numbers used here are `Int`,
JS `Set` objects are insertion-ordered deduplicated `List`s.
-/

set_option maxHeartbeats 1000000

namespace GifStealer

/-- Named characters so that character-class tests read plainly. -/
def squote : Char := Char.ofNat 39

/-- The double-quote character. -/
def dquote : Char := Char.ofNat 34

/-- The backslash character. -/
def bslash : Char := Char.ofNat 92

/-- JS `s.toLowerCase()`, modelled characterwise. -/
def jsToLower (s : String) : String := String.mk (s.data.map Char.toLower)

/-- JS `s.split(sep)[0]`: the prefix of `s` before the first occurrence of
the character `sep` (all of `s` when `sep` does not occur). -/
def takeUntil (sep : Char) (s : String) : String :=
  String.mk (s.data.takeWhile (fun c => ¬ c = sep))

/-- JS `s.endsWith(post)`. -/
def strEndsWith (s post : String) : Bool := post.data.isSuffixOf s.data

/-- JS `s.split(sep)` on a single-character separator, over char lists. -/
def splitChar (sep : Char) : List Char → List (List Char)
  | [] => [[]]
  | c :: rest =>
    let r := splitChar sep rest
    if c = sep then [] :: r
    else
      match r with
      | h :: t => (c :: h) :: t
      | [] => [[c]]

/-- The target-file-type filter of `collectFromDoc` (src/background.js
lines 96/103/113): `href.toLowerCase().split('?')[0].endsWith('.gif')`. -/
def gifHit (href : String) : Bool :=
  strEndsWith (takeUntil '?' (jsToLower href)) ".gif"

/-- JS `Set.add` on an insertion-ordered list: a no-op on duplicates. -/
def setAdd (l : List String) (x : String) : List String :=
  if x ∈ l then l else l ++ [x]

/-- A parsed-URL object as produced by the browser's `new URL`, restricted
to the three properties the source reads: `.href`, `.origin`
(scheme+host+port) and `.hostname`. -/
structure URLObj where
  href : String
  origin : String
  hostname : String
  deriving DecidableEq, Repr

/-- The surfaces of a parsed document that `collectFromDoc` reads:
`doc.images` (each image's `src` property), the `href` attributes of
`a[href]` elements, and the `style.backgroundImage` value of each
`*[style]` element. -/
structure Doc where
  images : List String
  anchors : List String
  styles : List String
  deriving DecidableEq, Repr

/-- The document with no elements (what `DOMParser` yields on an empty body). -/
def emptyDoc : Doc := ⟨[], [], []⟩

/-- The host environment: `resolve raw base` models `new URL(raw, base)`
(`none` when the constructor throws), and `fetch url` models
`fetch(url)` + `resp.ok` + `DOMParser.parseFromString` (`none` when the
fetch rejects or the status is not ok). -/
structure Env where
  resolve : String → String → Option URLObj
  fetch : String → Option Doc

/-- The crawl configuration (arguments of `pageCrawler`). -/
structure Config where
  depth : Int
  includeSubdomains : Bool
  maxPages : Int
  deriving DecidableEq, Repr

/-! Section: the inline-style regex.

Line 110 of the source is the regex literal
`/url\\((['"]?)([^'")]+)\\1\\)/`.  Inside a JS regex literal `\\` is an
escaped backslash matching one literal backslash character, so the
pattern is: literal `url`, literal `\`, group 1 = [ group 2 = optional
quote, group 3 = one or more characters none of which is a quote or `)`,
literal `\`, literal `1`, literal `\` ].  The code then reads
`urlMatch[2]`, i.e. group 2, the optional quote.  The functions below
implement `exec` of that pattern (leftmost match, returning group 2). -/

/-- Does the list start with the literal characters backslash, `1`, backslash? -/
def startsTailMark : List Char → Bool
  | c1 :: c2 :: c3 :: _ => c1 = bslash && c2 = '1' && c3 = bslash
  | _ => false

/-- A character admissible in group 3 of the regex: anything except a
single quote, a double quote or a closing parenthesis. -/
def contentChar (c : Char) : Bool := ¬ (c = squote ∨ c = dquote ∨ c = ')')

/-- A quote character, the character class of group 2. -/
def isQuote (c : Char) : Bool := c = squote || c = dquote

/-- After at least one group-3 character has been consumed: succeed if the
literal `\1\` occurs after zero or more further group-3 characters. -/
def matchAfterOne : List Char → Bool
  | [] => false
  | c :: rest => startsTailMark (c :: rest) || (contentChar c && matchAfterOne rest)

/-- Match group 3 (one or more admissible characters) followed by the
literal `\1\`. -/
def matchContent : List Char → Bool
  | [] => false
  | c :: rest => contentChar c && matchAfterOne rest

/-- Match the part after the literal `url\`: an optional quote (group 2,
tried greedily first), then group 3 and the closing `\1\`; returns the
text of group 2 on success. -/
def matchTail : List Char → Option String
  | [] => none
  | c :: rest =>
    if isQuote c then
      if matchContent rest then some (String.mk [c])
      else if matchContent (c :: rest) then some "" else none
    else if matchContent (c :: rest) then some "" else none

/-- The `exec` of the regex on a character list: scan start positions left to
right, and at each position require the literal `url\` head before the
tail; return group 2 of the leftmost match. -/
def bgExec : List Char → Option String
  | [] => none
  | c :: rest =>
    if c = 'u' then
      match rest with
      | c2 :: c3 :: c4 :: tail =>
        if c2 = 'r' ∧ c3 = 'l' ∧ c4 = bslash then
          match matchTail tail with
          | some q => some q
          | none => bgExec rest
        else bgExec rest
      | _ => bgExec rest
    else bgExec rest

/-- One iteration of the `img`/anchor loops of `collectFromDoc`: resolve
the raw string against the base URL, and add the resolved `href` to the
result set when it passes the `.gif` filter (lines 93-105). -/
def addIfGif (resolve : String → String → Option URLObj) (baseURL : String)
    (r : List String) (s : String) : List String :=
  match resolve s baseURL with
  | some u => if gifHit u.href then setAdd r u.href else r
  | none => r

/-- One iteration of the inline-style loop of `collectFromDoc` (lines
107-116): run the regex on the element's `backgroundImage` value and, on
a match, resolve `urlMatch[2]` (group 2, the optional quote) and add it
when it passes the `.gif` filter. -/
def styleStep (resolve : String → String → Option URLObj) (baseURL : String)
    (r : List String) (m : String) : List String :=
  match bgExec m.data with
  | some q => addIfGif resolve baseURL r q
  | none => r

/-- Function `collectFromDoc(doc, baseURL)` (lines 90-118), acting on the results
accumulator it closes over: images, then anchors, then the inline-style
`background-image` values. -/
def collectFromDoc (resolve : String → String → Option URLObj)
    (doc : Doc) (baseURL : String) (acc : List String) : List String :=
  doc.styles.foldl (styleStep resolve baseURL)
    (doc.anchors.foldl (addIfGif resolve baseURL)
      (doc.images.foldl (addIfGif resolve baseURL) acc))

/-- Variable `baseDomain` (line 83): `startHost.split('.').slice(-2).join('.')`. -/
def baseDomainOf (host : String) : String :=
  let parts := (splitChar '.' host.data).map String.mk
  String.intercalate "." (parts.drop (parts.length - 2))

/-- Function `isInScope(urlObj)` (lines 120-129).  The catch branch of the source
is unreachable here because property reads on an already-parsed URL
object cannot throw. -/
def isInScope (origin baseDomain : String) (includeSubdomains : Bool)
    (u : URLObj) : Bool :=
  if u.origin = origin then true
  else if includeSubdomains then
    if u.hostname = baseDomain then true
    else if strEndsWith u.hostname ("." ++ baseDomain) then true
    else false
  else false

/-- The mutable crawl state closed over by `visit` and the drain loop:
`visited`, `results`, `pagesVisited` and the BFS `queue` of
`{url, d}` records.  `fetchLog` is ghost instrumentation recording, in
order, each `(url, depth)` on which `fetch` is called; it affects no
control flow. -/
structure CrawlState where
  visited : List String
  results : List String
  pagesVisited : Nat
  queue : List (String × Int)
  fetchLog : List (String × Int)
  deriving DecidableEq, Repr

/-- One iteration of the link-expansion loop of `visit` (lines 166-176):
resolve the anchor against the page URL, keep it when in scope, strip
the fragment, and push at depth `d1` when unvisited and under budget. -/
def expandStep (env : Env) (cfg : Config) (origin baseDomain : String)
    (pageURL : String) (visited : List String) (pagesVisited : Nat) (d1 : Int)
    (q : List (String × Int)) (a : String) : List (String × Int) :=
  match env.resolve a pageURL with
  | some obj =>
    if isInScope origin baseDomain cfg.includeSubdomains obj then
      if ¬ takeUntil '#' obj.href ∈ visited ∧ (pagesVisited : Int) < cfg.maxPages then
        q ++ [(takeUntil '#' obj.href, d1)]
      else q
    else q
  | none => q

/-- Lines 153-154 of `visit`: record the URL in `visited` and bump the
page counter (and log the fetch that immediately follows). -/
def fetchedState (st : CrawlState) (url : String) (d : Int) : CrawlState :=
  { st with
    visited := st.visited ++ [url]
    pagesVisited := st.pagesVisited + 1
    fetchLog := st.fetchLog ++ [(url, d)] }

/-- Line 163 of `visit`: merge the page's extracted resources. -/
def collectState (env : Env) (doc : Doc) (url : String) (st : CrawlState) :
    CrawlState :=
  { st with results := collectFromDoc env.resolve doc url st.results }

/-- Lines 166-176 of `visit`: push the page's in-scope links at depth `d1`. -/
def expandState (env : Env) (cfg : Config) (origin baseDomain : String)
    (doc : Doc) (url : String) (d1 : Int) (st : CrawlState) : CrawlState :=
  { st with
    queue := doc.anchors.foldl
      (expandStep env cfg origin baseDomain url st.visited st.pagesVisited d1)
      st.queue }

/-- Function `visit(url, currentDepth)` (lines 150-181). -/
def visit (env : Env) (cfg : Config) (origin baseDomain : String)
    (st : CrawlState) (url : String) (d : Int) : CrawlState :=
  if url ∈ st.visited then st
  else if cfg.maxPages ≤ (st.pagesVisited : Int) then st
  else
    match env.fetch url with
    | none => fetchedState st url d
    | some doc =>
      if d < cfg.depth then
        expandState env cfg origin baseDomain doc url (d + 1)
          (collectState env doc url (fetchedState st url d))
      else collectState env doc url (fetchedState st url d)

/-- Function `visit` either leaves the state unchanged or increments the page
counter by exactly one (used for the termination measure of the drain
loop). -/
theorem visit_shape (env : Env) (cfg : Config) (origin baseDomain : String)
    (st : CrawlState) (url : String) (d : Int) :
    visit env cfg origin baseDomain st url d = st ∨
      (visit env cfg origin baseDomain st url d).pagesVisited = st.pagesVisited + 1 := by
  unfold visit
  split
  · exact Or.inl rfl
  · split
    · exact Or.inl rfl
    · cases env.fetch url with
      | none => exact Or.inr rfl
      | some doc =>
        simp only []
        split
        · exact Or.inr rfl
        · exact Or.inr rfl

/-- The drain loop (lines 184-187):
`while (queue.length && pagesVisited < maxPages) { const item = queue.shift(); await visit(item.url, item.d); }` -/
def drainQueue (env : Env) (cfg : Config) (origin baseDomain : String)
    (st : CrawlState) : CrawlState :=
  match hq : st.queue with
  | [] => st
  | (u, d) :: rest =>
    if hb : (st.pagesVisited : Int) < cfg.maxPages then
      drainQueue env cfg origin baseDomain
        (visit env cfg origin baseDomain { st with queue := rest } u d)
    else st
termination_by ((cfg.maxPages - (st.pagesVisited : Int)).toNat, st.queue.length)
decreasing_by
  rcases visit_shape env cfg origin baseDomain { st with queue := rest } u d with h | h
  · rw [h]
    exact Prod.Lex.right _ (by simp [hq])
  · refine Prod.Lex.left _ _ ?_
    have h2 : (visit env cfg origin baseDomain { st with queue := rest } u d).pagesVisited
        = st.pagesVisited + 1 := h
    omega

/-- One iteration of the seeding loop (lines 139-147): resolve the anchor
against the start URL, keep it when in scope, strip the fragment, push
at depth 1 (no visited or budget gate at seeding time). -/
def seedStep (env : Env) (origin baseDomain : String) (inc : Bool)
    (startHref : String) (q : List (String × Int)) (a : String) :
    List (String × Int) :=
  match env.resolve a startHref with
  | some obj =>
    if isInScope origin baseDomain inc obj then q ++ [(takeUntil '#' obj.href, 1)]
    else q
  | none => q

/-- The initial queue (lines 137-148): anchors of the start document,
resolved against `location.href`, filtered by scope, fragment-stripped,
at depth 1 — and only when `depth > 0`. -/
def seedQueue (env : Env) (cfg : Config) (loc : URLObj) (startDoc : Doc) :
    List (String × Int) :=
  if 0 < cfg.depth then
    startDoc.anchors.foldl
      (seedStep env loc.origin (baseDomainOf loc.hostname) cfg.includeSubdomains loc.href) []
  else []

/-- The crawl state right before the drain loop runs (lines 85-148):
resources of the already-loaded start document (collected with no
network cost), the seeded queue, nothing visited, counter 0. -/
def initState (env : Env) (cfg : Config) (loc : URLObj) (startDoc : Doc) :
    CrawlState :=
  { visited := []
    results := collectFromDoc env.resolve startDoc loc.href []
    pagesVisited := 0
    queue := seedQueue env cfg loc startDoc
    fetchLog := [] }

/-- The whole of `pageCrawler(depth, includeSubdomains, maxPages)`
(lines 79-189) up to its final `Array.from(results)`, returning the
full final state: collect from the already-loaded start document, seed
the queue from its anchors when `depth > 0`, then drain the queue. -/
def crawlFinal (env : Env) (cfg : Config) (loc : URLObj) (startDoc : Doc) :
    CrawlState :=
  drainQueue env cfg loc.origin (baseDomainOf loc.hostname)
    (initState env cfg loc startDoc)

/-- The return value of `pageCrawler` (line 189): the discovered GIF URLs in
insertion order. -/
def pageCrawler (env : Env) (cfg : Config) (loc : URLObj) (startDoc : Doc) :
    List String :=
  (crawlFinal env cfg loc startDoc).results

/-! Section: basic lemmas about the drain loop. -/

/-- The drain loop is the identity on an empty queue. -/
theorem drainQueue_nil (env : Env) (cfg : Config) (o b : String)
    (st : CrawlState) (h : st.queue = []) :
    drainQueue env cfg o b st = st := by
  rw [drainQueue.eq_def]
  split
  · rfl
  · rename_i u d rest hq
    rw [h] at hq
    cases hq

/-- The drain loop is the identity once the page budget is consumed. -/
theorem drainQueue_halt (env : Env) (cfg : Config) (o b : String)
    (st : CrawlState) (h : cfg.maxPages ≤ (st.pagesVisited : Int)) :
    drainQueue env cfg o b st = st := by
  rw [drainQueue.eq_def]
  split
  · rfl
  · rw [dif_neg (by omega)]

/-- One step of the drain loop: shift the head task and visit it. -/
theorem drainQueue_cons (env : Env) (cfg : Config) (o b : String)
    (st : CrawlState) (u : String) (d : Int) (rest : List (String × Int))
    (hq : st.queue = (u, d) :: rest) (hb : (st.pagesVisited : Int) < cfg.maxPages) :
    drainQueue env cfg o b st
      = drainQueue env cfg o b (visit env cfg o b { st with queue := rest } u d) := by
  rw [drainQueue.eq_def]
  split
  · rename_i h0
    rw [h0] at hq
    cases hq
  · rename_i u' d' rest' hq'
    rw [hq'] at hq
    cases hq
    rw [dif_pos hb]

/-- Invariant preservation through the drain loop: a predicate preserved
by every guarded `visit` step holds of the loop's output. -/
theorem drainQueue_invariant (env : Env) (cfg : Config) (o b : String)
    (P : CrawlState → Prop)
    (hstep : ∀ st u d rest, st.queue = (u, d) :: rest →
      (st.pagesVisited : Int) < cfg.maxPages → P st →
      P (visit env cfg o b { st with queue := rest } u d))
    (st : CrawlState) (hP : P st) : P (drainQueue env cfg o b st) := by
  induction st using drainQueue.induct env cfg o b with
  | case1 x hq =>
    rw [drainQueue_nil env cfg o b x hq]
    exact hP
  | case2 x u d rest hq hb ih =>
    rw [drainQueue_cons env cfg o b x u d rest hq hb]
    exact ih (hstep x u d rest hq hb hP)
  | case3 x u d rest hq hb =>
    rw [drainQueue_halt env cfg o b x (by omega)]
    exact hP

/-! Section: membership lemmas for the extraction folds. -/

/-- Elements produced by a fold whose step only appends elements
satisfying `Q` are old elements or `Q`-elements. -/
theorem foldl_mem_inv {α β : Type} (Q : β → Prop) (f : List β → α → List β)
    (hf : ∀ r a x, x ∈ f r a → x ∈ r ∨ Q x) :
    ∀ (l : List α) (acc : List β) (x : β), x ∈ l.foldl f acc → x ∈ acc ∨ Q x := by
  intro l
  induction l with
  | nil => exact fun acc x hx => Or.inl hx
  | cons a t ih =>
    intro acc x hx
    rcases ih (f acc a) x hx with h | h
    · exact hf acc a x h
    · exact Or.inr h

theorem mem_setAdd {l : List String} {x y : String} (h : y ∈ setAdd l x) :
    y ∈ l ∨ y = x := by
  unfold setAdd at h
  split at h
  · exact Or.inl h
  · rcases List.mem_append.mp h with h | h
    · exact Or.inl h
    · exact Or.inr (List.mem_singleton.mp h)

theorem mem_addIfGif {res : String → String → Option URLObj} {base : String}
    {r : List String} {s y : String} (h : y ∈ addIfGif res base r s) :
    y ∈ r ∨ gifHit y = true := by
  unfold addIfGif at h
  split at h
  next u =>
    split at h
    next hg =>
      rcases mem_setAdd h with h | h
      · exact Or.inl h
      · subst h
        exact Or.inr hg
    next => exact Or.inl h
  next => exact Or.inl h

theorem mem_styleStep {res : String → String → Option URLObj} {base : String}
    {r : List String} {m y : String} (h : y ∈ styleStep res base r m) :
    y ∈ r ∨ gifHit y = true := by
  unfold styleStep at h
  split at h
  next q => exact mem_addIfGif h
  next => exact Or.inl h

/-- Every URL that `collectFromDoc` adds to the accumulator passes the
`.gif` filter. -/
theorem mem_collectFromDoc {res : String → String → Option URLObj} {doc : Doc}
    {base : String} {acc : List String} {y : String}
    (h : y ∈ collectFromDoc res doc base acc) :
    y ∈ acc ∨ gifHit y = true := by
  unfold collectFromDoc at h
  rcases foldl_mem_inv (fun x => gifHit x = true) (styleStep res base)
      (fun _ _ _ hx => mem_styleStep hx) doc.styles _ y h with h | h
  · rcases foldl_mem_inv (fun x => gifHit x = true) (addIfGif res base)
        (fun _ _ _ hx => mem_addIfGif hx) doc.anchors _ y h with h | h
    · rcases foldl_mem_inv (fun x => gifHit x = true) (addIfGif res base)
          (fun _ _ _ hx => mem_addIfGif hx) doc.images _ y h with h | h
      · exact Or.inl h
      · exact Or.inr h
    · exact Or.inr h
  · exact Or.inr h

/-- When `depth` is not positive the queue is never seeded, so the drain
loop has nothing to do and the crawl is just the start-document pass. -/
theorem crawlFinal_depth_nonpos (env : Env) (cfg : Config) (loc : URLObj)
    (startDoc : Doc) (h : ¬ 0 < cfg.depth) :
    crawlFinal env cfg loc startDoc = initState env cfg loc startDoc := by
  unfold crawlFinal
  apply drainQueue_nil
  show seedQueue env cfg loc startDoc = []
  unfold seedQueue
  rw [if_neg h]

/-- Function `visit` only ever adds filter-passing URLs to the result set. -/
theorem visit_results_gif {env : Env} {cfg : Config} {o b : String}
    {st : CrawlState} {url : String} {d : Int}
    (hP : ∀ r ∈ st.results, gifHit r = true) :
    ∀ r ∈ (visit env cfg o b st url d).results, gifHit r = true := by
  intro r hr
  unfold visit at hr
  split at hr
  · exact hP r hr
  split at hr
  · exact hP r hr
  split at hr
  next => exact hP r hr
  next doc =>
    split at hr
    · simp only [expandState, collectState, fetchedState] at hr
      rcases mem_collectFromDoc hr with h | h
      · exact hP r h
      · exact h
    · simp only [collectState, fetchedState] at hr
      rcases mem_collectFromDoc hr with h | h
      · exact hP r h
      · exact h

/-- Claim C1: every URL string in the final returned result set passes
the target-file-type filter — lowercased and query-stripped it ends in
`.gif` (`gifHit` is exactly the filter applied at every insertion by
`collectFromDoc`). -/
theorem claim_C1_result_set_gif_only (env : Env) (cfg : Config) (loc : URLObj)
    (startDoc : Doc) (u : String) (hu : u ∈ pageCrawler env cfg loc startDoc) :
    gifHit u = true := by
  have base : ∀ r ∈ (initState env cfg loc startDoc).results, gifHit r = true := by
    intro r hr
    simp only [initState] at hr
    rcases mem_collectFromDoc hr with h | h
    · exact absurd h (List.not_mem_nil r)
    · exact h
  have final := drainQueue_invariant env cfg loc.origin (baseDomainOf loc.hostname)
    (fun st => ∀ r ∈ st.results, gifHit r = true)
    (fun st u' d rest _ _ hP => visit_results_gif hP)
    (initState env cfg loc startDoc) base
  exact final u hu

/-- Concrete start page for the C1 witness: one image ending in `.gif`. -/
def envW1 : Env :=
  { resolve := fun s _ => some ⟨s, "", ""⟩
    fetch := fun _ => none }

/-- Start location used by several witnesses. -/
def locW : URLObj := ⟨"https://a.example/", "https://a.example", "a.example"⟩

/-- Start document used by the C1 witness. -/
def docW1 : Doc := ⟨["https://a.example/x.gif"], [], []⟩

/-- Depth-0 configuration used by several witnesses. -/
def cfgW1 : Config := ⟨0, false, 200⟩

/-- Witness for claim C1 at a concrete crawl. -/
theorem claim_C1_witness : gifHit "https://a.example/x.gif" = true :=
  claim_C1_result_set_gif_only envW1 cfgW1 locW docW1 "https://a.example/x.gif"
    (by
      show _ ∈ pageCrawler envW1 cfgW1 locW docW1
      unfold pageCrawler
      rw [crawlFinal_depth_nonpos envW1 cfgW1 locW docW1 (by decide)]
      decide)

/-- Claim C4: with `depth = 0` the crawl follows no links and fetches no
pages; the result is exactly the extractor's output on the start
document alone, whatever the start document's anchors are. -/
theorem claim_C4_depth_zero_start_only (env : Env) (cfg : Config) (loc : URLObj)
    (startDoc : Doc) (h : cfg.depth = 0) :
    pageCrawler env cfg loc startDoc
        = collectFromDoc env.resolve startDoc loc.href []
      ∧ (crawlFinal env cfg loc startDoc).fetchLog = [] := by
  have hz := crawlFinal_depth_nonpos env cfg loc startDoc (by omega)
  constructor
  · unfold pageCrawler
    rw [hz]
    rfl
  · rw [hz]
    rfl

/-- Start document for the C4 witness: it has links, which must be ignored. -/
def docW4 : Doc :=
  ⟨["https://a.example/x.gif"], ["https://a.example/page2", "https://a.example/y.gif"], []⟩

/-- Witness for claim C4 at a concrete crawl whose start page has links. -/
theorem claim_C4_witness :
    pageCrawler envW1 cfgW1 locW docW4
        = collectFromDoc envW1.resolve docW4 locW.href []
      ∧ (crawlFinal envW1 cfgW1 locW docW4).fetchLog = [] :=
  claim_C4_depth_zero_start_only envW1 cfgW1 locW docW4 rfl

/-- Environment for the C3 counterexample. -/
def envC3 : Env :=
  { resolve := fun s _ => some ⟨s, "https://c.example", "c.example"⟩
    fetch := fun _ => none }

/-- Configuration with an invalid (non-positive) `maxPages`. -/
def cfgC3 : Config := ⟨1, false, 0⟩

/-- Start location for the C3 counterexample. -/
def locC3 : URLObj := ⟨"https://c.example/", "https://c.example", "c.example"⟩

/-- Start document for the C3 counterexample. -/
def docC3 : Doc := ⟨["https://c.example/a.gif"], ["https://c.example/p2"], []⟩

/-- Counterexample to claim C3: `pageCrawler` contains no configuration
validation and no `throw`; every fallible statement it runs sits inside
a `try/catch`, so it has no failure channel at all (its embedding is a
total function).  With `maxPages = 0` — an invalid configuration — the
crawl does not propagate any failure: it completes normally, fetches
nothing, and returns the start document's resources. -/
theorem claim_C3_counterexample :
    pageCrawler envC3 cfgC3 locC3 docC3 = ["https://c.example/a.gif"]
      ∧ (crawlFinal envC3 cfgC3 locC3 docC3).fetchLog = [] := by
  have hz : crawlFinal envC3 cfgC3 locC3 docC3 = initState envC3 cfgC3 locC3 docC3 := by
    unfold crawlFinal
    apply drainQueue_halt
    decide
  constructor
  · unfold pageCrawler
    rw [hz]
    decide
  · rw [hz]
    rfl

/-- Claim C3 as amended: the crawler never validates its configuration
and never surfaces a hard failure; with a non-positive `maxPages` the
crawl silently completes, fetches no page, and returns exactly the
start-document extraction. -/
theorem claim_C3_amended_no_validation (env : Env) (cfg : Config) (loc : URLObj)
    (startDoc : Doc) (h : cfg.maxPages ≤ 0) :
    pageCrawler env cfg loc startDoc
        = collectFromDoc env.resolve startDoc loc.href []
      ∧ (crawlFinal env cfg loc startDoc).fetchLog = [] := by
  have hz : crawlFinal env cfg loc startDoc = initState env cfg loc startDoc := by
    unfold crawlFinal
    apply drainQueue_halt
    show cfg.maxPages ≤ ((0 : Nat) : Int)
    omega
  constructor
  · unfold pageCrawler
    rw [hz]
    rfl
  · rw [hz]
    rfl

/-- Witness for the amended claim C3 at a concrete crawl. -/
theorem claim_C3_amended_witness :
    pageCrawler envC3 cfgC3 locC3 docC3
        = collectFromDoc envC3.resolve docC3 locC3.href []
      ∧ (crawlFinal envC3 cfgC3 locC3 docC3).fetchLog = [] :=
  claim_C3_amended_no_validation envC3 cfgC3 locC3 docC3 (by decide)

/-- Function `visit` keeps the page counter within the (positive) budget and in
lock-step with the length of the fetch log. -/
theorem visit_budget {env : Env} {cfg : Config} {o b : String}
    {st : CrawlState} {url : String} {d : Int}
    (hP : (st.pagesVisited : Int) ≤ cfg.maxPages
      ∧ st.fetchLog.length = st.pagesVisited) :
    ((visit env cfg o b st url d).pagesVisited : Int) ≤ cfg.maxPages
      ∧ (visit env cfg o b st url d).fetchLog.length
          = (visit env cfg o b st url d).pagesVisited := by
  unfold visit
  split
  · exact hP
  split
  · exact hP
  next hbud =>
    have hlen : (st.fetchLog ++ [(url, d)]).length = st.pagesVisited + 1 := by
      rw [List.length_append, hP.2]
      rfl
    split
    next =>
      exact ⟨by simp only [fetchedState]; push_cast; omega,
        by simp only [fetchedState]; exact hlen⟩
    next doc =>
      split
      · exact ⟨by simp only [expandState, collectState, fetchedState]; push_cast; omega,
          by simp only [expandState, collectState, fetchedState]; exact hlen⟩
      · exact ⟨by simp only [collectState, fetchedState]; push_cast; omega,
          by simp only [collectState, fetchedState]; exact hlen⟩

/-- Claim C5: the crawl terminates — `drainQueue` is a total function,
accepted by the kernel with the lexicographic measure (remaining page
budget, queue length) — and at completion the page counter never
exceeds `maxPages`, which also bounds the total number of fetch calls. -/
theorem claim_C5_terminates_within_budget (env : Env) (cfg : Config)
    (loc : URLObj) (startDoc : Doc) (h : 0 < cfg.maxPages) :
    ((crawlFinal env cfg loc startDoc).pagesVisited : Int) ≤ cfg.maxPages
      ∧ (crawlFinal env cfg loc startDoc).fetchLog.length
          = (crawlFinal env cfg loc startDoc).pagesVisited := by
  have base : ((initState env cfg loc startDoc).pagesVisited : Int) ≤ cfg.maxPages
      ∧ (initState env cfg loc startDoc).fetchLog.length
          = (initState env cfg loc startDoc).pagesVisited := by
    constructor
    · show ((0 : Nat) : Int) ≤ cfg.maxPages
      omega
    · rfl
  exact drainQueue_invariant env cfg loc.origin (baseDomainOf loc.hostname)
    (fun st => (st.pagesVisited : Int) ≤ cfg.maxPages
      ∧ st.fetchLog.length = st.pagesVisited)
    (fun st u' d rest _ _ hP => visit_budget hP)
    (initState env cfg loc startDoc) base

/-- Witness for claim C5 at a concrete crawl. -/
theorem claim_C5_witness :
    (0 : Int) < cfgW1.maxPages
      ∧ (((crawlFinal envW1 cfgW1 locW docW1).pagesVisited : Int) ≤ cfgW1.maxPages
        ∧ (crawlFinal envW1 cfgW1 locW docW1).fetchLog.length
            = (crawlFinal envW1 cfgW1 locW docW1).pagesVisited) :=
  ⟨by decide, claim_C5_terminates_within_budget envW1 cfgW1 locW docW1 (by decide)⟩

/-- Function `visit` keeps the fetch log (first components, in order) identical to
the visited ledger, the ledger duplicate-free, and the page counter
equal to the ledger's size. -/
theorem visit_ledger {env : Env} {cfg : Config} {o b : String}
    {st : CrawlState} {url : String} {d : Int}
    (hP : st.fetchLog.map Prod.fst = st.visited
      ∧ st.visited.Nodup
      ∧ st.pagesVisited = st.visited.length) :
    (visit env cfg o b st url d).fetchLog.map Prod.fst
        = (visit env cfg o b st url d).visited
      ∧ (visit env cfg o b st url d).visited.Nodup
      ∧ (visit env cfg o b st url d).pagesVisited
          = (visit env cfg o b st url d).visited.length := by
  obtain ⟨hmap, hnd, hcnt⟩ := hP
  unfold visit
  split
  · exact ⟨hmap, hnd, hcnt⟩
  next hnv =>
    split
    · exact ⟨hmap, hnd, hcnt⟩
    have hmap' : (st.fetchLog ++ [(url, d)]).map Prod.fst = st.visited ++ [url] := by
      rw [List.map_append, hmap]
      rfl
    have hnd' : (st.visited ++ [url]).Nodup := by
      rw [List.nodup_append]
      exact ⟨hnd, List.nodup_singleton url, by simpa using hnv⟩
    have hcnt' : st.pagesVisited + 1 = (st.visited ++ [url]).length := by
      rw [List.length_append, hcnt]
      rfl
    split
    next => exact ⟨hmap', hnd', hcnt'⟩
    next doc =>
      split
      · exact ⟨hmap', hnd', hcnt'⟩
      · exact ⟨hmap', hnd', hcnt'⟩

/-- Claim C6: no page URL is fetched twice.  Over the whole crawl the
sequence of fetched URLs is exactly the visited ledger, hence
duplicate-free, and the number of fetch calls equals the ledger's size
(which is also the page counter). -/
theorem claim_C6_each_url_fetched_once (env : Env) (cfg : Config)
    (loc : URLObj) (startDoc : Doc) :
    ((crawlFinal env cfg loc startDoc).fetchLog.map Prod.fst).Nodup
      ∧ (crawlFinal env cfg loc startDoc).fetchLog.map Prod.fst
          = (crawlFinal env cfg loc startDoc).visited
      ∧ (crawlFinal env cfg loc startDoc).fetchLog.length
          = (crawlFinal env cfg loc startDoc).visited.length
      ∧ (crawlFinal env cfg loc startDoc).pagesVisited
          = (crawlFinal env cfg loc startDoc).visited.length := by
  unfold crawlFinal
  have final := drainQueue_invariant env cfg loc.origin (baseDomainOf loc.hostname)
    (fun st => st.fetchLog.map Prod.fst = st.visited
      ∧ st.visited.Nodup
      ∧ st.pagesVisited = st.visited.length)
    (fun st u' d rest _ _ hP => visit_ledger hP)
    (initState env cfg loc startDoc) ⟨rfl, List.nodup_nil, rfl⟩
  obtain ⟨hmap, hnd, hcnt⟩ := final
  refine ⟨hmap ▸ hnd, hmap, ?_, hcnt⟩
  rw [← hmap, List.length_map]

/-- The expansion loop only ever pushes tasks at depth `d1`. -/
theorem mem_expandStep {env : Env} {cfg : Config} {o b pageURL : String}
    {visited : List String} {pagesVisited : Nat} {d1 : Int}
    {q : List (String × Int)} {a : String} {x : String × Int}
    (h : x ∈ expandStep env cfg o b pageURL visited pagesVisited d1 q a) :
    x ∈ q ∨ x.2 = d1 := by
  unfold expandStep at h
  split at h
  next obj =>
    split at h
    · split at h
      · rcases List.mem_append.mp h with h | h
        · exact Or.inl h
        · rw [List.mem_singleton.mp h]
          exact Or.inr rfl
      · exact Or.inl h
    · exact Or.inl h
  next => exact Or.inl h

/-- The seeding loop only ever pushes tasks at depth 1. -/
theorem mem_seedStep {env : Env} {o b : String} {inc : Bool} {startHref : String}
    {q : List (String × Int)} {a : String} {x : String × Int}
    (h : x ∈ seedStep env o b inc startHref q a) :
    x ∈ q ∨ x.2 = 1 := by
  unfold seedStep at h
  split at h
  next obj =>
    split at h
    · rcases List.mem_append.mp h with h | h
      · exact Or.inl h
      · rw [List.mem_singleton.mp h]
        exact Or.inr rfl
    · exact Or.inl h
  next => exact Or.inl h

/-- Function `visit` preserves the invariant that every queued task and every
logged fetch has depth between 1 and `cfg.depth`: the dequeued task's
bound carries to its log entry, and links are expanded (at depth one
more) only when the page's depth is strictly below `cfg.depth`. -/
theorem visit_depth_step (env : Env) (cfg : Config) (o b : String)
    (st : CrawlState) (u : String) (d : Int) (rest : List (String × Int))
    (hq : st.queue = (u, d) :: rest)
    (hP : (∀ p ∈ st.queue, 1 ≤ p.2 ∧ p.2 ≤ cfg.depth)
      ∧ (∀ p ∈ st.fetchLog, 1 ≤ p.2 ∧ p.2 ≤ cfg.depth)) :
    (∀ p ∈ (visit env cfg o b { st with queue := rest } u d).queue,
        1 ≤ p.2 ∧ p.2 ≤ cfg.depth)
      ∧ (∀ p ∈ (visit env cfg o b { st with queue := rest } u d).fetchLog,
          1 ≤ p.2 ∧ p.2 ≤ cfg.depth) := by
  obtain ⟨hqinv, hlog⟩ := hP
  have hd : 1 ≤ d ∧ d ≤ cfg.depth := by
    refine hqinv (u, d) ?_
    rw [hq]
    exact List.mem_cons_self _ _
  have hrest : ∀ p ∈ rest, 1 ≤ p.2 ∧ p.2 ≤ cfg.depth := by
    intro p hp
    refine hqinv p ?_
    rw [hq]
    exact List.mem_cons_of_mem _ hp
  have hlog' : ∀ p ∈ st.fetchLog ++ [(u, d)], 1 ≤ p.2 ∧ p.2 ≤ cfg.depth := by
    intro p hp
    rcases List.mem_append.mp hp with hp | hp
    · exact hlog p hp
    · rw [List.mem_singleton.mp hp]
      exact hd
  unfold visit
  split
  · exact ⟨hrest, hlog⟩
  split
  · exact ⟨hrest, hlog⟩
  split
  next => exact ⟨hrest, hlog'⟩
  next doc hfetch =>
    split
    next hlt =>
      constructor
      · intro p hp
        simp only [expandState, collectState, fetchedState] at hp
        rcases foldl_mem_inv (fun x => x.2 = d + 1) _
            (fun _ _ _ hx => mem_expandStep hx) doc.anchors _ p hp with hp | hp
        · exact hrest p hp
        · rw [hp]
          omega
      · intro p hp
        simp only [expandState, collectState, fetchedState] at hp
        exact hlog' p hp
    · exact ⟨hrest, hlog'⟩

/-- Claim C7: no page task with depth above `cfg.depth` is ever dequeued
and fetched — every entry of the crawl's fetch log has depth between 1
(the seeding depth) and `cfg.depth` inclusive. -/
theorem claim_C7_no_fetch_beyond_depth (env : Env) (cfg : Config)
    (loc : URLObj) (startDoc : Doc) (p : String × Int)
    (hp : p ∈ (crawlFinal env cfg loc startDoc).fetchLog) :
    1 ≤ p.2 ∧ p.2 ≤ cfg.depth := by
  have base : (∀ q ∈ (initState env cfg loc startDoc).queue, 1 ≤ q.2 ∧ q.2 ≤ cfg.depth)
      ∧ (∀ q ∈ (initState env cfg loc startDoc).fetchLog, 1 ≤ q.2 ∧ q.2 ≤ cfg.depth) := by
    constructor
    · intro q hq
      show 1 ≤ q.2 ∧ q.2 ≤ cfg.depth
      have : q ∈ seedQueue env cfg loc startDoc := hq
      unfold seedQueue at this
      split at this
      next hdep =>
        rcases foldl_mem_inv (fun x => x.2 = 1) _
            (fun _ _ _ hx => mem_seedStep hx) startDoc.anchors _ q this with h | h
        · exact absurd h (List.not_mem_nil q)
        · rw [h]
          omega
      next => exact absurd this (List.not_mem_nil q)
    · intro q hq
      exact absurd hq (List.not_mem_nil q)
  have final := drainQueue_invariant env cfg loc.origin (baseDomainOf loc.hostname)
    (fun st => (∀ q ∈ st.queue, 1 ≤ q.2 ∧ q.2 ≤ cfg.depth)
      ∧ (∀ q ∈ st.fetchLog, 1 ≤ q.2 ∧ q.2 ≤ cfg.depth))
    (fun st u' d rest hq hb hP => visit_depth_step env cfg _ _ st u' d rest hq hP)
    (initState env cfg loc startDoc) base
  exact final.2 p hp

/-- Environment for the C7 witness: every anchor resolves to the same
same-origin page, whose fetch yields an empty document. -/
def envW7 : Env :=
  { resolve := fun _ _ => some ⟨"https://h.example/p2", "https://h.example", "h.example"⟩
    fetch := fun _ => some emptyDoc }

/-- Start location for the C7 witness. -/
def locW7 : URLObj := ⟨"https://h.example/", "https://h.example", "h.example"⟩

/-- Start document for the C7 witness: one link to follow. -/
def docW7 : Doc := ⟨[], ["p2"], []⟩

/-- Depth-1 configuration for the C7 witness. -/
def cfgW7 : Config := ⟨1, false, 5⟩

/-- Witness for claim C7: the crawl above fetches `/p2` at depth 1, and
the claim's bound holds of that fetch-log entry. -/
theorem claim_C7_witness :
    1 ≤ (("https://h.example/p2", (1 : Int)) : String × Int).2
      ∧ (("https://h.example/p2", (1 : Int)) : String × Int).2 ≤ cfgW7.depth :=
  claim_C7_no_fetch_beyond_depth envW7 cfgW7 locW7 docW7 _
    (by
      show _ ∈ (drainQueue envW7 cfgW7 locW7.origin (baseDomainOf locW7.hostname)
        (initState envW7 cfgW7 locW7 docW7)).fetchLog
      rw [drainQueue_cons envW7 cfgW7 locW7.origin (baseDomainOf locW7.hostname)
        (initState envW7 cfgW7 locW7 docW7) "https://h.example/p2" 1 [] (by decide) (by decide)]
      rw [drainQueue_nil _ _ _ _ _ (by decide)]
      decide)

/-- Claim C8: the scope predicate accepts a candidate exactly when it has
the crawl's starting origin (scheme+host+port, compared as the origin
string), or `includeSubdomains` is set and the candidate hostname equals
the base domain (the last two dot-separated labels of the start host) or
ends with `.` followed by it; with `includeSubdomains = true` and start
host `www.example.com`, `static.example.com` is in scope and
`example.org` is not. -/
theorem claim_C8_scope_predicate :
    (∀ (origin startHost : String) (inc : Bool) (u : URLObj),
      isInScope origin (baseDomainOf startHost) inc u = true ↔
        (u.origin = origin
          ∨ (inc = true
            ∧ (u.hostname = baseDomainOf startHost
              ∨ strEndsWith u.hostname ("." ++ baseDomainOf startHost) = true))))
    ∧ baseDomainOf "www.example.com" = "example.com"
    ∧ isInScope "https://www.example.com" (baseDomainOf "www.example.com") true
        ⟨"https://static.example.com/a", "https://static.example.com",
          "static.example.com"⟩ = true
    ∧ isInScope "https://www.example.com" (baseDomainOf "www.example.com") true
        ⟨"https://example.org/", "https://example.org", "example.org"⟩ = false := by
  refine ⟨?_, by decide, by decide, by decide⟩
  intro o sh inc u
  unfold isInScope
  split_ifs with h1 h2 h3 h4 <;> simp_all

/-- Environment with `fetch` patched so that the single URL `u` yields an empty parsed
page instead of failing. -/
def patchEnv (env : Env) (u : String) : Env :=
  { env with fetch := fun v => if v = u then some emptyDoc else env.fetch v }

/-- A failing fetch of `u` and a fetch of `u` returning an empty page
drive `visit` to the same state: the page contributes no resources and
no queued links either way, and the visited/counter bookkeeping is
identical. -/
theorem visit_fetch_patch (env : Env) (cfg : Config) (o b : String) (u : String)
    (h : env.fetch u = none) (st : CrawlState) (url : String) (d : Int) :
    visit env cfg o b st url d = visit (patchEnv env u) cfg o b st url d := by
  by_cases hu : url = u
  · unfold visit
    by_cases hvis : url ∈ st.visited
    · rw [if_pos hvis, if_pos hvis]
    rw [if_neg hvis, if_neg hvis]
    by_cases hbud : cfg.maxPages ≤ (st.pagesVisited : Int)
    · rw [if_pos hbud, if_pos hbud]
    rw [if_neg hbud, if_neg hbud]
    have hp : (patchEnv env u).fetch url = some emptyDoc := by
      simp [patchEnv, hu]
    have hn : env.fetch url = none := by
      rw [hu]
      exact h
    rw [hn, hp]
    show fetchedState st url d
      = if d < cfg.depth then
          expandState (patchEnv env u) cfg o b emptyDoc url (d + 1)
            (collectState (patchEnv env u) emptyDoc url (fetchedState st url d))
        else collectState (patchEnv env u) emptyDoc url (fetchedState st url d)
    by_cases hd : d < cfg.depth
    · rw [if_pos hd]
      rfl
    · rw [if_neg hd]
      rfl
  · have hp : (patchEnv env u).fetch url = env.fetch url := by
      simp [patchEnv, hu]
    unfold visit
    rw [hp]
    cases hf : env.fetch url with
    | none => rfl
    | some doc =>
      by_cases hd : d < cfg.depth
      · simp only [if_pos hd]
        rfl
      · simp only [if_neg hd]
        rfl

/-- The drain loop is insensitive to replacing a failing fetch by an
empty page. -/
theorem drainQueue_fetch_patch (env : Env) (cfg : Config) (o b : String)
    (u : String) (h : env.fetch u = none) (st : CrawlState) :
    drainQueue env cfg o b st = drainQueue (patchEnv env u) cfg o b st := by
  induction st using drainQueue.induct env cfg o b with
  | case1 x hq =>
    rw [drainQueue_nil env cfg o b x hq, drainQueue_nil (patchEnv env u) cfg o b x hq]
  | case2 x u' d rest hq hb ih =>
    rw [drainQueue_cons env cfg o b x u' d rest hq hb,
      drainQueue_cons (patchEnv env u) cfg o b x u' d rest hq hb,
      ← visit_fetch_patch env cfg o b u h]
    exact ih
  | case3 x u' d rest hq hb =>
    rw [drainQueue_halt env cfg o b x (by omega),
      drainQueue_halt (patchEnv env u) cfg o b x (by omega)]

/-- A fetch that always fails never changes the result set at `visit`. -/
theorem visit_results_of_fetch_none {env : Env} {cfg : Config} {o b : String}
    {st : CrawlState} {url : String} {d : Int} (h : env.fetch url = none) :
    (visit env cfg o b st url d).results = st.results := by
  unfold visit
  split
  · rfl
  split
  · rfl
  rw [h]
  rfl

/-- Claim C9: a page whose fetch fails (network/CORS rejection or non-ok
status, `fetch = none`) is absorbed locally — the whole crawl behaves
exactly as if that page had fetched as an empty document, contributing
no resources and no queued links while traversal continues; and even if
every fetch fails, the crawl still completes normally and returns the
set accumulated from the start document. -/
theorem claim_C9_fetch_failure_absorbed (env : Env) (cfg : Config)
    (loc : URLObj) (startDoc : Doc) (u : String) (h : env.fetch u = none) :
    pageCrawler env cfg loc startDoc = pageCrawler (patchEnv env u) cfg loc startDoc
      ∧ pageCrawler { env with fetch := fun _ => none } cfg loc startDoc
          = collectFromDoc env.resolve startDoc loc.href [] := by
  constructor
  · unfold pageCrawler crawlFinal
    have hinit : initState (patchEnv env u) cfg loc startDoc
        = initState env cfg loc startDoc := rfl
    rw [hinit]
    exact congrArg CrawlState.results
      (drainQueue_fetch_patch env cfg loc.origin (baseDomainOf loc.hostname) u h
        (initState env cfg loc startDoc))
  · exact drainQueue_invariant { env with fetch := fun _ => none } cfg loc.origin
      (baseDomainOf loc.hostname)
      (fun st => st.results = collectFromDoc env.resolve startDoc loc.href [])
      (fun st u' d rest _ _ hP => (visit_results_of_fetch_none rfl).trans hP)
      (initState { env with fetch := fun _ => none } cfg loc startDoc) rfl

/-- Environment for the C9 witness: one in-scope link whose fetch fails. -/
def envW9 : Env :=
  { resolve := fun _ _ => some ⟨"https://h.example/p2", "https://h.example", "h.example"⟩
    fetch := fun _ => none }

/-- Witness for claim C9 at a concrete crawl. -/
theorem claim_C9_witness :
    pageCrawler envW9 cfgW7 locW7 docW7
        = pageCrawler (patchEnv envW9 "https://h.example/p2") cfgW7 locW7 docW7
      ∧ pageCrawler { envW9 with fetch := fun _ => none } cfgW7 locW7 docW7
          = collectFromDoc envW9.resolve docW7 locW7.href [] :=
  claim_C9_fetch_failure_absorbed envW9 cfgW7 locW7 docW7 "https://h.example/p2" rfl

/-- A `visit` of an already-visited URL is a no-op. -/
theorem visit_visited {env : Env} {cfg : Config} {o b : String}
    {st : CrawlState} {url : String} {d : Int} (h : url ∈ st.visited) :
    visit env cfg o b st url d = st := by
  unfold visit
  rw [if_pos h]

/-- Claim C10: visiting an unvisited task under budget records the URL in
`visited` and spends one unit of the page budget no matter what the
fetch outcome is (the environment, hence the fetch result, is
universally quantified and the bookkeeping below is independent of it) —
so a page whose fetch fails still consumes budget — and an immediate
re-visit of the same URL is a no-op, so it is never retried. -/
theorem claim_C10_budget_spent_before_outcome (env : Env) (cfg : Config)
    (o b : String) (st : CrawlState) (u : String) (d : Int)
    (h1 : ¬ u ∈ st.visited) (h2 : (st.pagesVisited : Int) < cfg.maxPages) :
    (visit env cfg o b st u d).visited = st.visited ++ [u]
      ∧ (visit env cfg o b st u d).pagesVisited = st.pagesVisited + 1
      ∧ (visit env cfg o b st u d).fetchLog = st.fetchLog ++ [(u, d)]
      ∧ visit env cfg o b (visit env cfg o b st u d) u d
          = visit env cfg o b st u d := by
  have key : (visit env cfg o b st u d).visited = st.visited ++ [u]
      ∧ (visit env cfg o b st u d).pagesVisited = st.pagesVisited + 1
      ∧ (visit env cfg o b st u d).fetchLog = st.fetchLog ++ [(u, d)] := by
    unfold visit
    rw [if_neg h1, if_neg (by omega : ¬ cfg.maxPages ≤ (st.pagesVisited : Int))]
    cases hf : env.fetch u with
    | none => exact ⟨rfl, rfl, rfl⟩
    | some doc =>
      by_cases hd : d < cfg.depth
      · simp only [if_pos hd]
        exact ⟨rfl, rfl, rfl⟩
      · simp only [if_neg hd]
        exact ⟨rfl, rfl, rfl⟩
  refine ⟨key.1, key.2.1, key.2.2, visit_visited ?_⟩
  rw [key.1]
  exact List.mem_append_right _ (List.mem_singleton.mpr rfl)

/-- Empty crawl state for the C10 witness. -/
def stW10 : CrawlState := ⟨[], [], 0, [], []⟩

/-- Witness for claim C10 at a concrete state and environment. -/
theorem claim_C10_witness :
    (visit envW1 cfgW1 "https://a.example" "a.example" stW10 "https://a.example/p" 1).visited
        = stW10.visited ++ ["https://a.example/p"]
      ∧ (visit envW1 cfgW1 "https://a.example" "a.example" stW10 "https://a.example/p" 1).pagesVisited
          = stW10.pagesVisited + 1
      ∧ (visit envW1 cfgW1 "https://a.example" "a.example" stW10 "https://a.example/p" 1).fetchLog
          = stW10.fetchLog ++ [("https://a.example/p", 1)]
      ∧ visit envW1 cfgW1 "https://a.example" "a.example"
            (visit envW1 cfgW1 "https://a.example" "a.example" stW10 "https://a.example/p" 1)
            "https://a.example/p" 1
          = visit envW1 cfgW1 "https://a.example" "a.example" stW10 "https://a.example/p" 1 :=
  claim_C10_budget_spent_before_outcome envW1 cfgW1 "https://a.example" "a.example"
    stW10 "https://a.example/p" 1 (by decide) (by decide)

/-- Resolver for the C2 failing input: it resolves the relative candidate
`x.gif` against the page URL, exactly what the browser's `new URL`
would do, so URL resolution is not the reason the style surface fails. -/
def resolveC2 : String → String → Option URLObj :=
  fun s base =>
    if s = "x.gif" ∧ base = "https://site.example/page" then
      some ⟨"https://site.example/x.gif", "https://site.example", "site.example"⟩
    else none

/-- Failing input for claim C2: a document whose only element carries the
inline style `background-image: url("x.gif")`. -/
def docC2 : Doc := ⟨[], [], ["url(\"x.gif\")"]⟩

/-- The same candidate exposed through the image surface instead. -/
def docC2img : Doc := ⟨["x.gif"], [], []⟩

/-- Claim C2, evaluated at the failing input: the inline-style regex
`/url\\((['"]?)([^'")]+)\\1\\)/` demands a literal backslash after
`url` (and around the literal `1`), so `exec` returns no match on the
standard CSS text `url("x.gif")` and the extractor collects nothing
from the style surface — even though the same candidate resolves fine
and passes the filter, as the image surface shows. -/
theorem claim_C2_style_regex_mismatch :
    bgExec ("url(\"x.gif\")".data) = none
      ∧ collectFromDoc resolveC2 docC2 "https://site.example/page" [] = []
      ∧ resolveC2 "x.gif" "https://site.example/page"
          = some ⟨"https://site.example/x.gif", "https://site.example", "site.example"⟩
      ∧ gifHit "https://site.example/x.gif" = true
      ∧ collectFromDoc resolveC2 docC2img "https://site.example/page" []
          = ["https://site.example/x.gif"] :=
  ⟨by decide, by decide, by decide, by decide, by decide⟩

end GifStealer
